import Mathlib

/-
Verification of the statsd client library (Go, package statsd) against its
natural-language specification.

Shallow embedding notes:
- Go strings are modelled by Lean String; the wire separators used by the tag
  codec (',', '=', ':') are ASCII one-byte runes, so Go's byte-level
  strings.Split agrees with character-level splitting on List Char.
- Go panics are modelled as Option.none or as an Except error value.
- Go float32 sample rates are modelled by ℚ (no claim depends on binary
  floating-point rounding).
- The pseudo-random draw randFloat() is modelled by an explicit parameter.
-/

namespace Statsd

/-- Go struct tag from options.go: one key/value pair. -/
structure tag where
  K : String
  V : String
deriving DecidableEq, Repr

/-- Go type TagFormat uint8 from options.go; 0 is the unset format,
InfluxDB = 1 and Datadog = 2 (iota + 1). -/
abbrev TagFormat := Nat

/-- InfluxDB tag format constant (options.go const block). -/
def InfluxDB : TagFormat := 1

/-- Datadog tag format constant (options.go const block). -/
def Datadog : TagFormat := 2

/-- Error value modelling the Go panic "statsd: Tags only accepts an even
number of arguments": the InvalidArgument condition of the spec. -/
inductive StatsdError where
  | invalidArgument
deriving DecidableEq, Repr

deriving instance DecidableEq for Except

/-- Inner loop body of mergeTags (options.go, lines 182-196): scan the whole
output for the key; overwrite every match in place, otherwise append. -/
def mergeStep (output : List tag) (key val : String) : List tag :=
  if output.any (fun t => t.K == key) then
    output.map (fun t => if t.K == key then { t with V := val } else t)
  else
    output ++ [{ K := key, V := val }]

/-- Go loop index i over newTags: pairs (newTags[2i], newTags[2i+1]). -/
def toPairs : List String → List (String × String)
  | key :: val :: rest => (key, val) :: toPairs rest
  | _ => []

/-- Go func mergeTags (options.go): panics (here: InvalidArgument) on an
odd-length flat list, returns the base unchanged on an empty list, otherwise
copies the base and folds every key/value pair through mergeStep. -/
def mergeTags (tags : List tag) (newTags : List String) : Except StatsdError (List tag) :=
  if newTags.length % 2 ≠ 0 then
    .error .invalidArgument
  else if newTags.length = 0 then
    .ok tags
  else
    .ok ((toPairs newTags).foldl (fun output p => mergeStep output p.1 p.2) tags)

/-- Go joinFuncs[InfluxDB] (options.go): writes ",K=V" for every tag into a
byte buffer. -/
def joinInfluxDB (tags : List tag) : String :=
  tags.foldl (fun buf t => buf ++ "," ++ t.K ++ "=" ++ t.V) ""

/-- Go joinFuncs[Datadog] (options.go): starts from "|#", writes "K:V" pairs
separated by commas, tracking whether the pair is the first one. -/
def joinDatadog (tags : List tag) : String :=
  (tags.foldl
    (fun acc t =>
      (acc.1 ++ (if acc.2 then "" else ",") ++ t.K ++ ":" ++ t.V, false))
    ("|#", true)).1

/-- Go kv := strings.Split(pair, sep); tag{K: kv[0], V: kv[1]} — indexing
kv[1] panics (none) when the separator does not occur in the pair. -/
def splitPair (sep : Char) (pair : List Char) : Option tag :=
  match pair.splitOn sep with
  | k :: v :: _ => some { K := String.mk k, V := String.mk v }
  | _ => none

/-- Go splitFuncs[InfluxDB] (options.go): s = s[1:] (panics on an empty
string), split on ',' and each pair on '='. -/
def splitInfluxDB (s : String) : Option (List tag) :=
  match s.data with
  | [] => none
  | _ :: rest => (rest.splitOn ',').mapM (splitPair '=')

/-- Go splitFuncs[Datadog] (options.go): s = s[2:] (panics when shorter than
two bytes), split on ',' and each pair on ':'. -/
def splitDatadog (s : String) : Option (List tag) :=
  match s.data with
  | _ :: _ :: rest => (rest.splitOn ',').mapM (splitPair ':')
  | _ => none

/-- Go func joinTags (options.go): empty set or unset format yields "";
otherwise dispatch through the joinFuncs map (a format outside the map is a
nil function value: calling it panics, modelled as none). -/
def joinTags (tf : TagFormat) (tags : List tag) : Option String :=
  if tags.length = 0 ∨ tf = 0 then some ""
  else
    match tf with
    | 1 => some (joinInfluxDB tags)
    | 2 => some (joinDatadog tags)
    | _ => none

/-- Go func splitTags (options.go): empty input or unset format yields nil;
otherwise dispatch through the splitFuncs map. -/
def splitTags (tf : TagFormat) (tags : String) : Option (List tag) :=
  if tags.length = 0 ∨ tf = 0 then some []
  else
    match tf with
    | 1 => splitInfluxDB tags
    | 2 => splitDatadog tags
    | _ => none

/-- Modelled from the spec: the repository's Packet Buffer (the conn type with
its buf, maxPacketSize and closed fields) is not among the provided source
files, so its state is taken from spec §3 "Packet Buffer state":
pendingBytes, maxSize, closed, plus the Transport observables (the list of
performed writes and whether the Transport has been closed). -/
structure Buffer where
  pending : String
  maxSize : Nat
  closed : Bool
  transportClosed : Bool
  writes : List String
deriving DecidableEq, Repr

/-- Modelled from the spec (§4.3 flush, §4.3 close): if the buffer is closed
the call is a no-op; if the buffer is empty it is a no-op; otherwise the
accumulated bytes are written to the Transport in one operation and the
buffer is cleared. -/
def Buffer.flush (b : Buffer) : Buffer :=
  if b.closed then b
  else if b.pending = "" then b
  else { b with writes := b.writes ++ [b.pending], pending := "" }

/-- Modelled from the spec (§4.3 append, §4.3 close): a closed buffer ignores
the call; otherwise, if the pending bytes plus the line plus one separator
byte exceed maxSize while the pending bytes are non-empty, flush first; then
append the line, preceded by a single newline separator when the buffer is
non-empty (an oversized line is appended anyway, never split). -/
def Buffer.append (b : Buffer) (line : String) : Buffer :=
  if b.closed then b
  else
    let b1 := if b.maxSize < b.pending.length + line.length + 1 ∧ b.pending ≠ "" then
      b.flush else b
    if b1.pending = "" then { b1 with pending := line }
    else { b1 with pending := b1.pending ++ "\n" ++ line }

/-- Modelled from the spec (§4.3 close): flushes, then closes the Transport,
then marks the buffer permanently closed. -/
def Buffer.close (b : Buffer) : Buffer :=
  { b.flush with closed := true, transportClosed := true }

/-- Go *conn pointer held by a Client (statsd.go). Only its identity (pointer
value, for the Clone sharing contract) and its tagFormat field are relevant
to the claims; id models the pointer. -/
structure conn where
  id : Nat
  tagFormat : TagFormat
deriving DecidableEq, Repr

/-- Go struct clientConfig (options.go). Prefix is called Pfx because Lean
reserves the word. -/
structure clientConfig where
  Muted : Bool
  Rate : ℚ
  Pfx : String
  Tags : List tag
deriving DecidableEq, Repr

/-- Go struct connConfig (options.go); the ErrorHandler function field is
omitted (no claim observes it). -/
structure connConfig where
  Addr : String
  FlushPeriod : Nat
  MaxPacketSize : Nat
  Network : String
  TagFormat : TagFormat
deriving DecidableEq, Repr

/-- Go struct config (options.go). -/
structure config where
  Conn : connConfig
  Client : clientConfig
deriving DecidableEq, Repr

/-- Go type Option func(*config) (options.go); named Opt because Option is
taken in Lean. -/
def Opt := config → config

/-- Go for loop applying every option to the config. -/
def applyOpts (conf : config) (opts : List Opt) : config :=
  opts.foldl (fun cf o => o cf) conf

/-- Go func Mute (options.go): sets c.Client.Muted = b. -/
def Mute (b : Bool) : Opt :=
  fun c => { c with Client := { c.Client with Muted := b } }

/-- Go func SampleRate (options.go): sets c.Client.Rate = rate. -/
def SampleRate (rate : ℚ) : Opt :=
  fun c => { c with Client := { c.Client with Rate := rate } }

/-- Go func TagsFormat (options.go): sets c.Conn.TagFormat = tf. -/
def TagsFormat (tf : TagFormat) : Opt :=
  fun c => { c with Conn := { c.Conn with TagFormat := tf } }

/-- Go func Tags (options.go): panics on an odd number of arguments, and
otherwise yields the option that stores mergeTags([], tags) (ignoring empty
argument lists). The error branch inside the closure is unreachable. -/
def Tags (tags : List String) : Except StatsdError Opt :=
  if tags.length % 2 ≠ 0 then .error .invalidArgument
  else .ok (fun c =>
    if tags.length = 0 then c
    else
      match mergeTags [] tags with
      | .ok merged => { c with Client := { c.Client with Tags := merged } }
      | .error _ => c)

/-- Go struct Client (statsd.go). Prefix is called pfx because Lean reserves
the word. -/
structure Client where
  conn : conn
  muted : Bool
  rate : ℚ
  pfx : String
  tagFormat : TagFormat
  tags : List tag
deriving DecidableEq, Repr

/-- Default configuration built at the top of New (statsd.go, lines 17-30). -/
def defaultConfig : config :=
  { Conn := { Addr := ":8125", FlushPeriod := 100, MaxPacketSize := 1440,
              Network := "udp", TagFormat := 0 },
    Client := { Muted := false, Rate := 1, Pfx := "", Tags := [] } }

/-- Go func New (statsd.go): applies the options to the default config, calls
newConn (whose success is the connErr parameter here, since newConn is not
among the provided source files), and on error returns the half-initialised
client with muted forced to true, together with the error (Bool). On success
rate, prefix and tags are filled in from the config. -/
def New (opts : List Opt) (connErr : Bool) : Client × Bool :=
  let conf := applyOpts defaultConfig opts
  let c : Client :=
    { conn := { id := 0, tagFormat := conf.Conn.TagFormat },
      muted := conf.Client.Muted,
      rate := 0, pfx := "", tagFormat := 0, tags := [] }
  if connErr then ({ c with muted := true }, true)
  else
    ({ c with
        rate := conf.Client.Rate, pfx := conf.Client.Pfx,
        tags := conf.Client.Tags }, false)

/-- Go method Client.Clone (statsd.go): applies the options to a config seeded
with the parent's rate, prefix and tags (connection settings zeroed), and
builds a clone that shares the parent's conn and is muted whenever the parent
is muted or the options asked for muting. -/
def Client.clone (c : Client) (opts : List Opt) : Client :=
  let conf := applyOpts
    { Conn := { Addr := "", FlushPeriod := 0, MaxPacketSize := 0,
                Network := "", TagFormat := 0 },
      Client := { Muted := false, Rate := c.rate, Pfx := c.pfx, Tags := c.tags } }
    opts
  { conn := c.conn,
    muted := c.muted || conf.Client.Muted,
    rate := conf.Client.Rate,
    pfx := conf.Client.Pfx,
    tagFormat := 0,
    tags := conf.Client.Tags }

/-- Go method Client.skip (statsd.go): true when the client is muted or the
sampling draw (the rnd parameter, modelling randFloat()) exceeds the rate. -/
def Client.skip (c : Client) (rnd : ℚ) : Bool :=
  c.muted || (c.rate ≠ 1 && rnd > c.rate)

/-- Go interface{} metric value: the numeric or string shapes accepted by the
facade. -/
inductive Val where
  | int (n : Int)
  | float (q : ℚ)
  | str (s : String)
deriving DecidableEq, Repr

/-- Argument tuple of a call into the conn layer (conn.metric, conn.gauge or
conn.unique in statsd.go): the observation point for what a metric operation
hands to the connection. -/
inductive ConnCall where
  | metric (pfx bucket : String) (n : Val) (typ : String) (rate : ℚ) (tagSuffix : String)
  | gaugeCall (pfx bucket : String) (v : Val) (tagSuffix : String)
  | uniqueCall (pfx bucket : String) (v : String) (tagSuffix : String)
deriving DecidableEq, Repr

/-- Outcome of one facade metric call: a Go panic, a silent skip, or one call
into the conn layer. -/
inductive CallResult where
  | panicked
  | skipped
  | sent (call : ConnCall)
deriving DecidableEq, Repr

/-- Go method Client.Count (statsd.go): skip check, tag merge and join, then
conn.metric(prefix, bucket, n, "c", rate, tagstr). -/
def Client.count (c : Client) (rnd : ℚ) (bucket : String) (n : Val)
    (tags : List String) : CallResult :=
  if c.skip rnd then .skipped
  else
    match mergeTags c.tags tags with
    | .error _ => .panicked
    | .ok merged =>
      match joinTags c.conn.tagFormat merged with
      | none => .panicked
      | some tagstr => .sent (.metric c.pfx bucket n "c" c.rate tagstr)

/-- Go method Client.Increment (statsd.go): c.Count(bucket, 1). -/
def Client.increment (c : Client) (rnd : ℚ) (bucket : String) : CallResult :=
  c.count rnd bucket (.int 1) []

/-- Go method Client.Gauge (statsd.go): skip check, tag merge and join, then
conn.gauge(prefix, bucket, value, tagstr). -/
def Client.gauge (c : Client) (rnd : ℚ) (bucket : String) (value : Val)
    (tags : List String) : CallResult :=
  if c.skip rnd then .skipped
  else
    match mergeTags c.tags tags with
    | .error _ => .panicked
    | .ok merged =>
      match joinTags c.conn.tagFormat merged with
      | none => .panicked
      | some tagstr => .sent (.gaugeCall c.pfx bucket value tagstr)

/-- Go method Client.Timing (statsd.go): like Count with type marker "ms". -/
def Client.timing (c : Client) (rnd : ℚ) (bucket : String) (value : Val)
    (tags : List String) : CallResult :=
  if c.skip rnd then .skipped
  else
    match mergeTags c.tags tags with
    | .error _ => .panicked
    | .ok merged =>
      match joinTags c.conn.tagFormat merged with
      | none => .panicked
      | some tagstr => .sent (.metric c.pfx bucket value "ms" c.rate tagstr)

/-- Go method Client.Histogram (statsd.go): like Count with type marker "h". -/
def Client.histogram (c : Client) (rnd : ℚ) (bucket : String) (value : Val)
    (tags : List String) : CallResult :=
  if c.skip rnd then .skipped
  else
    match mergeTags c.tags tags with
    | .error _ => .panicked
    | .ok merged =>
      match joinTags c.conn.tagFormat merged with
      | none => .panicked
      | some tagstr => .sent (.metric c.pfx bucket value "h" c.rate tagstr)

/-- Go method Client.Unique (statsd.go): skip check, tag merge and join, then
conn.unique(prefix, bucket, value, tagstr). -/
def Client.unique (c : Client) (rnd : ℚ) (bucket : String) (value : String)
    (tags : List String) : CallResult :=
  if c.skip rnd then .skipped
  else
    match mergeTags c.tags tags with
    | .error _ => .panicked
    | .ok merged =>
      match joinTags c.conn.tagFormat merged with
      | none => .panicked
      | some tagstr => .sent (.uniqueCall c.pfx bucket value tagstr)

/-- Go method Client.Flush (statsd.go): returns immediately when muted,
otherwise locks the conn and runs conn.flush(0) on the buffer it owns. -/
def Client.Flush (c : Client) (b : Buffer) : Buffer :=
  if c.muted then b else b.flush

/-- Go method Client.Close (statsd.go): returns immediately when muted,
otherwise flushes, closes the Transport and sets conn.closed. -/
def Client.Close (c : Client) (b : Buffer) : Buffer :=
  if c.muted then b else b.close

/-- C1: appending a line whose size (with one separator byte) overflows a
non-empty, non-closed buffer performs exactly one flush of the prior pending
contents before the line is appended; in particular with maxSize = 20 the
appends "foo:1|c", "bar:1|c", "baz:1|c" from an empty buffer flush exactly
"foo:1|c\nbar:1|c" on the third append and leave "baz:1|c" pending. -/
theorem append_overflow_flushes_once :
    (∀ (b : Buffer) (line : String), b.closed = false → b.pending ≠ "" →
      b.maxSize < b.pending.length + line.length + 1 →
      (b.append line).writes = b.writes ++ [b.pending] ∧ (b.append line).pending = line)
    ∧ (((Buffer.mk "" 20 false false []).append "foo:1|c").append "bar:1|c").append "baz:1|c"
        = Buffer.mk "baz:1|c" 20 false false ["foo:1|c\nbar:1|c"] := by
  constructor
  · intro b line hcl hne hov
    simp [Buffer.append, Buffer.flush, hcl, hne, hov]
  · decide

/-- Witness for C1: the overflow append of the spec scenario, starting from
the buffer holding the first two lines. -/
theorem append_overflow_flushes_once_witness :
    ((Buffer.mk "foo:1|c\nbar:1|c" 20 false false []).append "baz:1|c").writes
        = [] ++ ["foo:1|c\nbar:1|c"]
      ∧ ((Buffer.mk "foo:1|c\nbar:1|c" 20 false false []).append "baz:1|c").pending
        = "baz:1|c" :=
  append_overflow_flushes_once.1 (Buffer.mk "foo:1|c\nbar:1|c" 20 false false [])
    "baz:1|c" (by decide) (by decide) (by decide)

/-- C2: a single line longer than maxSize still ends up pending as a whole
after its append, and the next flush writes exactly that line, unmodified, as
one Transport write: it is never split and never dropped. -/
theorem oversized_line_own_flush (b : Buffer) (line : String)
    (hcl : b.closed = false) (hov : b.maxSize < line.length) :
    (b.append line).pending = line
      ∧ ((b.append line).flush).writes = (b.append line).writes ++ [line] := by
  have hne : line ≠ "" := by
    intro h
    subst h
    simp at hov
  by_cases hp : b.pending = ""
  · have h1 : b.append line = { b with pending := line } := by
      simp [Buffer.append, hcl, hp]
    simp [h1, Buffer.flush, hcl, hne]
  · have hov2 : b.maxSize < b.pending.length + line.length + 1 := by omega
    have h1 : b.append line =
        { b with writes := b.writes ++ [b.pending], pending := line } := by
      simp [Buffer.append, Buffer.flush, hcl, hp, hov2]
    simp [h1, Buffer.flush, hcl, hne]

/-- Witness for C2: a 7-byte line appended to an empty buffer with
maxSize = 5 stays whole and is flushed on its own. -/
theorem oversized_line_own_flush_witness :
    ((Buffer.mk "" 5 false false []).append "foo:1|c").pending = "foo:1|c"
      ∧ (((Buffer.mk "" 5 false false []).append "foo:1|c").flush).writes
        = ((Buffer.mk "" 5 false false []).append "foo:1|c").writes ++ ["foo:1|c"] :=
  oversized_line_own_flush (Buffer.mk "" 5 false false []) "foo:1|c"
    (by decide) (by decide)

/-- C3: once the buffer has been closed, every later append or flush is a
no-op (state unchanged, hence no further Transport write and no reopening:
the Transport stays closed); at the client level, Flush after Close leaves
the buffer untouched. -/
theorem close_then_append_flush_noop :
    (∀ (b : Buffer) (line : String),
      (b.close).append line = b.close ∧ (b.close).flush = b.close
        ∧ (b.close).closed = true ∧ (b.close).transportClosed = true)
      ∧ (∀ (c : Client) (b : Buffer), c.Flush (c.Close b) = c.Close b) := by
  constructor
  · intro b line
    simp [Buffer.close, Buffer.append, Buffer.flush]
  · intro c b
    by_cases hm : c.muted
    · simp [Client.Flush, Client.Close, hm]
    · simp [Client.Flush, Client.Close, hm, Buffer.close, Buffer.flush]

/-- C4: when Transport construction fails, New returns the error together
with a client that is permanently muted: every metric operation, Flush and
Close on that client is a no-op that transmits nothing. -/
theorem new_connection_error_muted :
    ∀ opts : List Opt,
      (New opts true).2 = true
      ∧ (New opts true).1.muted = true
      ∧ (∀ (rnd : ℚ) (bucket : String) (n : Val) (tags : List String),
          (New opts true).1.count rnd bucket n tags = .skipped)
      ∧ (∀ (rnd : ℚ) (bucket : String) (v : Val) (tags : List String),
          (New opts true).1.gauge rnd bucket v tags = .skipped)
      ∧ (∀ (rnd : ℚ) (bucket : String) (v : Val) (tags : List String),
          (New opts true).1.timing rnd bucket v tags = .skipped)
      ∧ (∀ (rnd : ℚ) (bucket : String) (v : Val) (tags : List String),
          (New opts true).1.histogram rnd bucket v tags = .skipped)
      ∧ (∀ (rnd : ℚ) (bucket : String) (v : String) (tags : List String),
          (New opts true).1.unique rnd bucket v tags = .skipped)
      ∧ (∀ (rnd : ℚ) (bucket : String),
          (New opts true).1.increment rnd bucket = .skipped)
      ∧ (∀ b : Buffer, (New opts true).1.Flush b = b)
      ∧ (∀ b : Buffer, (New opts true).1.Close b = b) := by
  intro opts
  refine ⟨rfl, rfl, ?_, ?_, ?_, ?_, ?_, ?_, ?_, ?_⟩ <;>
    intros <;>
    simp [New, Client.count, Client.gauge, Client.timing, Client.histogram,
      Client.unique, Client.increment, Client.skip, Client.Flush, Client.Close]

/-- C6: the merge operation fails exactly on odd-length flat tag lists, the
error is always the InvalidArgument condition (the sole synchronous error
class), and the Tags option fails the same way. -/
theorem mergeTags_invalidArgument_only :
    (∀ (tags : List tag) (newTags : List String), newTags.length % 2 ≠ 0 →
      mergeTags tags newTags = .error .invalidArgument)
      ∧ (∀ (tags : List tag) (newTags : List String) (e : StatsdError),
          mergeTags tags newTags = .error e →
            e = .invalidArgument ∧ newTags.length % 2 ≠ 0)
      ∧ (∀ tags : List String, tags.length % 2 ≠ 0 →
          Tags tags = .error .invalidArgument) := by
  refine ⟨?_, ?_, ?_⟩
  · intro tags newTags hodd
    simp [mergeTags, hodd]
  · intro tags newTags e herr
    cases e
    refine ⟨rfl, ?_⟩
    intro heven
    by_cases h0 : newTags.length = 0 <;> simp [mergeTags, heven, h0] at herr
  · intro tags hodd
    simp [Tags, hodd]

/-- Witness for C6: the odd-length list ["a"] is rejected with
InvalidArgument. -/
theorem mergeTags_invalidArgument_only_witness :
    mergeTags [] ["a"] = .error .invalidArgument
      ∧ Tags ["a"] = .error .invalidArgument :=
  ⟨mergeTags_invalidArgument_only.1 [] ["a"] (by decide),
   mergeTags_invalidArgument_only.2.2 ["a"] (by decide)⟩

/-- C8: tag encoding yields the empty string when the tag set is empty or the
format is unset, and tag decoding of an empty input or under an unset format
yields the empty set, never an error. -/
theorem joinTags_splitTags_empty_or_unset :
    (∀ (tf : TagFormat) (tags : List tag), tags = [] ∨ tf = 0 →
      joinTags tf tags = some "")
      ∧ (∀ (tf : TagFormat) (s : String), s = "" ∨ tf = 0 →
          splitTags tf s = some []) := by
  constructor
  · intro tf tags h
    rcases h with h | h <;> simp [joinTags, h]
  · intro tf s h
    rcases h with h | h <;> simp [splitTags, h]

/-- Witness for C8: unset format with a non-empty set encodes to "", and the
Datadog format decodes "" to the empty set. -/
theorem joinTags_splitTags_empty_or_unset_witness :
    joinTags 0 [⟨"a", "1"⟩] = some "" ∧ splitTags Datadog "" = some [] :=
  ⟨joinTags_splitTags_empty_or_unset.1 0 [⟨"a", "1"⟩] (Or.inr rfl),
   joinTags_splitTags_empty_or_unset.2 Datadog "" (Or.inl rfl)⟩

/-- C9: cloning is mute-monotone — a clone of a muted client is muted no
matter which options (including Mute false) are passed — and the clone
always shares its parent's connection object. -/
theorem clone_muted_monotone_shares_conn :
    (∀ (c : Client) (opts : List Opt), c.muted = true → (c.clone opts).muted = true)
      ∧ (∀ (c : Client) (opts : List Opt), (c.clone opts).conn = c.conn) := by
  constructor
  · intro c opts h
    simp [Client.clone, h]
  · intro c opts
    rfl

/-- Witness for C9: a muted client cloned with Mute false stays muted and
keeps the parent's conn. -/
theorem clone_muted_monotone_shares_conn_witness :
    ((Client.mk (conn.mk 7 0) true 1 "" 0 []).clone [Mute false]).muted = true
      ∧ ((Client.mk (conn.mk 7 0) true 1 "" 0 []).clone [Mute false]).conn
        = conn.mk 7 0 :=
  ⟨clone_muted_monotone_shares_conn.1 (Client.mk (conn.mk 7 0) true 1 "" 0 [])
      [Mute false] rfl,
   clone_muted_monotone_shares_conn.2 (Client.mk (conn.mk 7 0) true 1 "" 0 [])
      [Mute false]⟩

/-- C10: Increment is observationally equal to Count with value 1 and no
tags, and both reduce to the same skip check, tag join of the client's own
tags, and conn.metric write with type marker "c". -/
theorem increment_eq_count_one :
    ∀ (c : Client) (rnd : ℚ) (bucket : String),
      c.increment rnd bucket = c.count rnd bucket (.int 1) []
      ∧ c.count rnd bucket (.int 1) [] =
          (if c.skip rnd then .skipped
           else
             match joinTags c.conn.tagFormat c.tags with
             | none => .panicked
             | some tagstr => .sent (.metric c.pfx bucket (.int 1) "c" c.rate tagstr)) := by
  intro c rnd bucket
  refine ⟨rfl, ?_⟩
  simp [Client.count, mergeTags]

/-- Spec: last-write-wins value for a key in the flat key/value sequence. -/
def lastVal (ps : List (String × String)) (k : String) : Option String :=
  ((ps.filter fun p => p.1 == k).getLast?).map Prod.snd

/-- Go helper: whether the base tag set contains the key. -/
def keyIn (base : List tag) (k : String) : Bool :=
  base.any fun t => t.K == k

/-- Keys in order of first occurrence. -/
def firstOcc (xs : List String) : List String :=
  xs.foldl (fun acc k => if k ∈ acc then acc else acc ++ [k]) []

/-- Spec-worded merge (§4.2): existing keys keep their original position with
the value overwritten by the last occurrence in the flat sequence, and keys
not present in the base are appended in first-occurrence order, again with
their last value. -/
def specMergeTags (base : List tag) (ps : List (String × String)) : List tag :=
  base.map (fun t => { t with V := (lastVal ps t.K).getD t.V })
    ++ (firstOcc ((ps.map Prod.fst).filter fun k => !keyIn base k)).map
        (fun k => { K := k, V := (lastVal ps k).getD "" })

theorem lastVal_concat (ps : List (String × String)) (k v key : String) :
    lastVal (ps ++ [(k, v)]) key = if key = k then some v else lastVal ps key := by
  by_cases h : key = k
  · subst h
    simp [lastVal, List.filter_append, List.getLast?_concat]
  · have hne : (k == key) = false := by
      simp only [beq_eq_false_iff_ne, ne_eq]
      exact fun hh => h hh.symm
    simp [lastVal, List.filter_append, h, hne]

theorem firstOcc_foldl_mem (xs : List String) :
    ∀ (acc : List String) (a : String),
      (a ∈ xs.foldl (fun acc k => if k ∈ acc then acc else acc ++ [k]) acc
        ↔ a ∈ acc ∨ a ∈ xs) := by
  induction xs with
  | nil => simp
  | cons x xs ih =>
    intro acc a
    simp only [List.foldl_cons]
    rw [ih]
    by_cases hx : x ∈ acc
    · simp only [if_pos hx, List.mem_cons]
      constructor
      · rintro (h | h)
        · exact Or.inl h
        · exact Or.inr (Or.inr h)
      · rintro (h | h | h)
        · exact Or.inl h
        · exact Or.inl (h ▸ hx)
        · exact Or.inr h
    · simp only [if_neg hx, List.mem_append, List.mem_singleton, List.mem_cons]
      tauto

theorem firstOcc_mem (xs : List String) (a : String) : a ∈ firstOcc xs ↔ a ∈ xs := by
  unfold firstOcc
  rw [firstOcc_foldl_mem]
  simp

theorem firstOcc_concat (xs : List String) (k : String) :
    firstOcc (xs ++ [k]) = if k ∈ xs then firstOcc xs else firstOcc xs ++ [k] := by
  unfold firstOcc
  rw [List.foldl_append]
  simp only [List.foldl_cons, List.foldl_nil]
  by_cases h : k ∈ xs <;>
    simp [firstOcc_foldl_mem, h]

theorem specMergeTags_nil (base : List tag) : specMergeTags base [] = base := by
  have h1 : base.map (fun t => { t with V := (lastVal [] t.K).getD t.V }) = base.map id :=
    List.map_congr_left (fun t _ => rfl)
  simp [specMergeTags, h1, firstOcc]

theorem any_map_comp {α β : Type} (f : α → β) (p : β → Bool) :
    ∀ l : List α, (l.map f).any p = l.any (p ∘ f) := by
  intro l
  induction l with
  | nil => rfl
  | cons x xs ih => simp [List.any_cons, ih, Function.comp]

theorem specMergeTags_hasKey (base : List tag) (ps : List (String × String)) (k : String) :
    ((specMergeTags base ps).any fun t => t.K == k) = true ↔
      (keyIn base k = true ∨ k ∈ ps.map Prod.fst) := by
  unfold specMergeTags
  rw [List.any_append, Bool.or_eq_true]
  constructor
  · rintro (h | h)
    · left
      rw [any_map_comp _ _ _] at h
      exact h
    · rw [any_map_comp _ _ _, List.any_eq_true] at h
      obtain ⟨key, hkey, hbeq⟩ := h
      have hk2 : key = k := by
        have hb2 : (key == k) = true := hbeq
        exact beq_iff_eq.mp hb2
      subst hk2
      rw [firstOcc_mem, List.mem_filter] at hkey
      exact Or.inr hkey.1
  · intro h
    by_cases hb : keyIn base k = true
    · left
      rw [any_map_comp _ _ _]
      exact hb
    · rcases h with h | h
      · exact absurd h hb
      · right
        rw [any_map_comp _ _ _, List.any_eq_true]
        refine ⟨k, ?_, ?_⟩
        · rw [firstOcc_mem, List.mem_filter]
          refine ⟨h, ?_⟩
          simp [hb]
        · exact beq_self_eq_true k

theorem specMergeTags_concat (base : List tag) (ps : List (String × String)) (k v : String) :
    specMergeTags base (ps ++ [(k, v)]) = mergeStep (specMergeTags base ps) k v := by
  by_cases hk : keyIn base k = true ∨ k ∈ ps.map Prod.fst
  · rw [mergeStep, if_pos ((specMergeTags_hasKey base ps k).2 hk)]
    unfold specMergeTags
    simp only [List.map_append]
    congr 1
    · rw [List.map_map]
      refine List.map_congr_left ?_
      intro t _
      by_cases ht : t.K = k
      · simp [lastVal_concat, ht, Function.comp]
      · simp [lastVal_concat, ht, Function.comp]
    · rw [List.map_map, List.filter_append]
      by_cases hb : keyIn base k = true
      · have hfk : List.filter (fun key => !keyIn base key) (List.map Prod.fst [(k, v)]) = [] := by
          simp [hb]
        rw [hfk, List.append_nil]
        refine List.map_congr_left ?_
        intro key hkey
        rw [firstOcc_mem, List.mem_filter] at hkey
        have hne : key ≠ k := by
          intro hq
          subst hq
          simp [hb] at hkey
        simp [lastVal_concat, hne, Function.comp]
      · have hbf : keyIn base k = false := by
          cases hcase : keyIn base k
          · rfl
          · exact absurd hcase hb
        have hkps : k ∈ ps.map Prod.fst := by
          rcases hk with h | h
          · exact absurd h hb
          · exact h
        have hfk : List.filter (fun key => !keyIn base key) (List.map Prod.fst [(k, v)]) = [k] := by
          simp [hbf]
        rw [hfk, firstOcc_concat, if_pos]
        swap
        · rw [List.mem_filter]
          exact ⟨hkps, by simp [hbf]⟩
        refine List.map_congr_left ?_
        intro key hkey
        by_cases hq : key = k
        · subst hq
          simp [lastVal_concat, Function.comp]
        · simp [lastVal_concat, hq, Function.comp]
  · rw [mergeStep, if_neg ((not_congr (specMergeTags_hasKey base ps k)).2 hk)]
    push_neg at hk
    obtain ⟨hb, hnp⟩ := hk
    have hbf : keyIn base k = false := by
      cases hcase : keyIn base k
      · rfl
      · exact absurd hcase hb
    unfold specMergeTags
    simp only [List.map_append]
    rw [List.filter_append]
    have hfk : List.filter (fun key => !keyIn base key) (List.map Prod.fst [(k, v)]) = [k] := by
      simp [hbf]
    rw [hfk, firstOcc_concat, if_neg]
    swap
    · rw [List.mem_filter]
      rintro ⟨hmem, -⟩
      exact hnp hmem
    rw [List.map_append, List.append_assoc]
    congr 1
    · refine List.map_congr_left ?_
      intro t ht
      have hne : t.K ≠ k := by
        intro hq
        have hky : keyIn base k = true := by
          rw [keyIn, List.any_eq_true]
          exact ⟨t, ht, by rw [hq]; exact beq_self_eq_true k⟩
        rw [hky] at hbf
        cases hbf
      simp [lastVal_concat, hne]
    congr 1
    · refine List.map_congr_left ?_
      intro key hkey
      rw [firstOcc_mem, List.mem_filter] at hkey
      have hne : key ≠ k := by
        intro hq
        subst hq
        exact hnp hkey.1
      simp [lastVal_concat, hne]
    · simp [lastVal_concat]

theorem mergeFold_eq_spec (base : List tag) (ps : List (String × String)) :
    ps.foldl (fun output p => mergeStep output p.1 p.2) base = specMergeTags base ps := by
  induction ps using List.reverseRecOn with
  | nil => exact (specMergeTags_nil base).symm
  | append_singleton ps p ih =>
    rw [List.foldl_append, List.foldl_cons, List.foldl_nil, ih, ← specMergeTags_concat]

/-- C5: merging a base tag set with an even-length flat key/value sequence
keeps every base key at its original position with its value overwritten by
the last occurrence in the flat sequence, and appends keys not present in
the base in first-occurrence order (mergeTags refines the spec-worded
specMergeTags); in particular merging {a:1} with [a,2,b,3] yields {a:2,b:3}
with a first. -/
theorem mergeTags_matches_spec :
    (∀ (base : List tag) (newTags : List String), newTags.length % 2 = 0 →
      mergeTags base newTags = .ok (specMergeTags base (toPairs newTags)))
    ∧ mergeTags [⟨"a", "1"⟩] ["a", "2", "b", "3"] = .ok [⟨"a", "2"⟩, ⟨"b", "3"⟩] := by
  constructor
  · intro base newTags heven
    by_cases h0 : newTags.length = 0
    · have hnil : newTags = [] := List.length_eq_zero.mp h0
      subst hnil
      simp [mergeTags, toPairs, specMergeTags_nil]
    · simp [mergeTags, heven, h0, mergeFold_eq_spec]
  · decide

/-- Witness for C5: the spec example, merging {a:1} with [a,2,b,3]. -/
theorem mergeTags_matches_spec_witness :
    mergeTags [⟨"a", "1"⟩] ["a", "2", "b", "3"]
      = .ok (specMergeTags [⟨"a", "1"⟩] (toPairs ["a", "2", "b", "3"])) :=
  mergeTags_matches_spec.1 [⟨"a", "1"⟩] ["a", "2", "b", "3"] (by decide)

/-- Helper: intercalating a single separator is flattening chunks each
prefixed by the separator, except for the first. -/
theorem intercalate_cons_chunks (sep : Char) (cs : List (List Char)) :
    ∀ c : List Char,
      List.intercalate [sep] (c :: cs) = c ++ (cs.map (fun x => sep :: x)).flatten := by
  induction cs with
  | nil =>
    intro c
    simp [List.intercalate]
  | cons d cs ih =>
    intro c
    have hd := ih d
    simp only [List.intercalate, List.intersperse_cons_cons, List.flatten_cons] at hd ⊢
    simp [hd, List.append_assoc]

/-- Character-level contents produced by the InfluxDB join loop. -/
theorem joinInfluxDB_foldl_data (tags : List tag) :
    ∀ acc : String,
      (tags.foldl (fun buf t => buf ++ "," ++ t.K ++ "=" ++ t.V) acc).data
        = acc.data ++ (tags.map (fun t => ',' :: (t.K.data ++ '=' :: t.V.data))).flatten := by
  induction tags with
  | nil =>
    intro acc
    simp
  | cons t rest ih =>
    intro acc
    rw [List.foldl_cons, ih]
    simp [String.data_append, List.append_assoc]

/-- Characters of a non-empty InfluxDB tag suffix: a leading comma then the
comma-intercalated key=value chunks. -/
theorem joinInfluxDB_data (t : tag) (rest : List tag) :
    (joinInfluxDB (t :: rest)).data
      = ',' :: List.intercalate [','] ((t :: rest).map (fun x => x.K.data ++ '=' :: x.V.data)) := by
  rw [joinInfluxDB, joinInfluxDB_foldl_data]
  simp only [List.map_cons]
  rw [intercalate_cons_chunks]
  simp [List.map_map, Function.comp, List.append_assoc]
  rfl

/-- Character-level contents produced by the Datadog join loop after the
first tag. -/
theorem joinDatadog_foldl_data (rest : List tag) :
    ∀ acc : String,
      ((rest.foldl
          (fun acc t => (acc.1 ++ (if acc.2 then "" else ",") ++ t.K ++ ":" ++ t.V, false))
          (acc, false)).1).data
        = acc.data ++ (rest.map (fun t => ',' :: (t.K.data ++ ':' :: t.V.data))).flatten := by
  induction rest with
  | nil =>
    intro acc
    simp
  | cons t rest ih =>
    intro acc
    rw [List.foldl_cons]
    rw [ih]
    simp [String.data_append, List.append_assoc]

/-- Characters of a non-empty Datadog tag suffix: the two marker bytes then
the comma-intercalated key:value chunks. -/
theorem joinDatadog_data (t : tag) (rest : List tag) :
    (joinDatadog (t :: rest)).data
      = '|' :: '#' :: List.intercalate [','] ((t :: rest).map (fun x => x.K.data ++ ':' :: x.V.data)) := by
  rw [joinDatadog, List.foldl_cons]
  rw [joinDatadog_foldl_data]
  simp only [List.map_cons]
  rw [intercalate_cons_chunks]
  simp [String.data_append, List.map_map, Function.comp, List.append_assoc]
  rfl

/-- Helper: mapM over a mapped list succeeds pointwise. -/
theorem mapM_map_eq_some {α β γ : Type} (f : β → Option γ) (h : α → β) (g : α → γ) :
    ∀ l : List α, (∀ x ∈ l, f (h x) = some (g x)) → (l.map h).mapM f = some (l.map g) := by
  intro l
  induction l with
  | nil =>
    intro hp
    rfl
  | cons x xs ih =>
    intro hp
    rw [List.map_cons, List.mapM_cons, hp x (List.mem_cons_self x xs),
      ih (fun y hy => hp y (List.mem_cons_of_mem x hy))]
    rfl

/-- Splitting key SEP value recovers key and value when neither contains the
separator. -/
theorem splitPair_sep_free (sep : Char) (a b : List Char) (ha : sep ∉ a) (hb : sep ∉ b) :
    splitPair sep (a ++ sep :: b) = some { K := String.mk a, V := String.mk b } := by
  have h3 : [sep].intercalate [a, b] = a ++ sep :: b := by
    rw [intercalate_cons_chunks]
    simp
  have hsplit : (a ++ sep :: b).splitOn sep = [a, b] := by
    rw [← h3]
    refine List.splitOn_intercalate [a, b] sep ?_ ?_
    · intro l hl
      rcases List.mem_cons.mp hl with rfl | hl2
      · exact ha
      · rcases List.mem_cons.mp hl2 with rfl | hl3
        · exact hb
        · cases hl3
    · intro hcon
      cases hcon
  rw [splitPair, hsplit]

/-- Unfolding of the InfluxDB split on a string known to be non-empty. -/
theorem splitInfluxDB_data_cons (s : String) (c : Char) (rest2 : List Char)
    (h : s.data = c :: rest2) :
    splitInfluxDB s = (rest2.splitOn ',').mapM (splitPair '=') := by
  unfold splitInfluxDB
  rw [h]

/-- Unfolding of the Datadog split on a string of at least two characters. -/
theorem splitDatadog_data_cons (s : String) (c d : Char) (rest2 : List Char)
    (h : s.data = c :: d :: rest2) :
    splitDatadog s = (rest2.splitOn ',').mapM (splitPair ':') := by
  unfold splitDatadog
  rw [h]

/-- Dispatch of splitTags for the InfluxDB format on non-empty input. -/
theorem splitTags_dialect1 (s : String) (h : ¬s.length = 0) :
    splitTags InfluxDB s = splitInfluxDB s := by
  unfold splitTags
  rw [if_neg]
  · rfl
  · simp [InfluxDB, h]

/-- Dispatch of splitTags for the Datadog format on non-empty input. -/
theorem splitTags_dialect2 (s : String) (h : ¬s.length = 0) :
    splitTags Datadog s = splitDatadog s := by
  unfold splitTags
  rw [if_neg]
  · rfl
  · simp [Datadog, h]

/-- C7 (amended): decode-after-encode is the identity on every non-empty tag
set with unique keys whose keys and values contain no separator character of
the dialect (',' and '=' for InfluxDB; ',' and ':' for Datadog); without the
separator restriction the round trip fails (see the counterexample). -/
theorem tag_roundtrip_separator_free :
    (∀ tags : List tag, tags ≠ [] →
      tags.Pairwise (fun a b => a.K ≠ b.K) →
      (∀ t ∈ tags, ',' ∉ t.K.data ∧ '=' ∉ t.K.data ∧ ',' ∉ t.V.data ∧ '=' ∉ t.V.data) →
      joinTags InfluxDB tags = some (joinInfluxDB tags)
        ∧ splitTags InfluxDB (joinInfluxDB tags) = some tags)
    ∧ (∀ tags : List tag, tags ≠ [] →
      tags.Pairwise (fun a b => a.K ≠ b.K) →
      (∀ t ∈ tags, ',' ∉ t.K.data ∧ ':' ∉ t.K.data ∧ ',' ∉ t.V.data ∧ ':' ∉ t.V.data) →
      joinTags Datadog tags = some (joinDatadog tags)
        ∧ splitTags Datadog (joinDatadog tags) = some tags) := by
  constructor
  · intro tags hne hpw hsep
    obtain ⟨t, rest, rfl⟩ : ∃ t rest, tags = t :: rest := by
      cases tags with
      | nil => exact absurd rfl hne
      | cons t rest => exact ⟨t, rest, rfl⟩
    have hdata := joinInfluxDB_data t rest
    constructor
    · rfl
    · have hlen : ¬(joinInfluxDB (t :: rest)).length = 0 := by
        rw [String.length, hdata]
        simp
      rw [splitTags_dialect1 _ hlen]
      rw [splitInfluxDB_data_cons _ ',' _ hdata]
      have hsp : (List.intercalate [','] ((t :: rest).map
            (fun x => x.K.data ++ '=' :: x.V.data))).splitOn ','
          = (t :: rest).map (fun x => x.K.data ++ '=' :: x.V.data) := by
        refine List.splitOn_intercalate _ ',' ?_ ?_
        · intro l hl
          obtain ⟨x, hx, rfl⟩ := List.mem_map.mp hl
          obtain ⟨h1, h2, h3, h4⟩ := hsep x hx
          intro hcm
          rcases List.mem_append.mp hcm with hc | hc
          · exact h1 hc
          · rcases List.mem_cons.mp hc with hceq | hc2
            · exact absurd hceq (by decide)
            · exact h3 hc2
        · simp
      rw [hsp]
      have hall : ∀ x ∈ t :: rest,
          splitPair '=' ((fun y : tag => y.K.data ++ '=' :: y.V.data) x) = some (id x) := by
        intro x hx
        obtain ⟨h1, h2, h3, h4⟩ := hsep x hx
        rw [splitPair_sep_free '=' x.K.data x.V.data h2 h4]
        rfl
      rw [mapM_map_eq_some (splitPair '=') (fun y : tag => y.K.data ++ '=' :: y.V.data)
        id (t :: rest) hall, List.map_id]
  · intro tags hne hpw hsep
    obtain ⟨t, rest, rfl⟩ : ∃ t rest, tags = t :: rest := by
      cases tags with
      | nil => exact absurd rfl hne
      | cons t rest => exact ⟨t, rest, rfl⟩
    have hdata := joinDatadog_data t rest
    constructor
    · rfl
    · have hlen : ¬(joinDatadog (t :: rest)).length = 0 := by
        rw [String.length, hdata]
        simp
      rw [splitTags_dialect2 _ hlen]
      rw [splitDatadog_data_cons _ '|' '#' _ hdata]
      have hsp : (List.intercalate [','] ((t :: rest).map
            (fun x => x.K.data ++ ':' :: x.V.data))).splitOn ','
          = (t :: rest).map (fun x => x.K.data ++ ':' :: x.V.data) := by
        refine List.splitOn_intercalate _ ',' ?_ ?_
        · intro l hl
          obtain ⟨x, hx, rfl⟩ := List.mem_map.mp hl
          obtain ⟨h1, h2, h3, h4⟩ := hsep x hx
          intro hcm
          rcases List.mem_append.mp hcm with hc | hc
          · exact h1 hc
          · rcases List.mem_cons.mp hc with hceq | hc2
            · exact absurd hceq (by decide)
            · exact h3 hc2
        · simp
      rw [hsp]
      have hall : ∀ x ∈ t :: rest,
          splitPair ':' ((fun y : tag => y.K.data ++ ':' :: y.V.data) x) = some (id x) := by
        intro x hx
        obtain ⟨h1, h2, h3, h4⟩ := hsep x hx
        rw [splitPair_sep_free ':' x.K.data x.V.data h2 h4]
        rfl
      rw [mapM_map_eq_some (splitPair ':') (fun y : tag => y.K.data ++ ':' :: y.V.data)
        id (t :: rest) hall, List.map_id]

/-- Counterexample to C7 as stated: under InfluxDB the set {a: b=c} (unique
keys, non-empty) encodes to ",a=b=c" but decodes to {a: b}, and under
Datadog the set {a: b:c} encodes to "|#a:b:c" but decodes to {a: b}. -/
theorem tag_roundtrip_counterexample :
    joinTags InfluxDB [⟨"a", "b=c"⟩] = some ",a=b=c"
      ∧ splitTags InfluxDB ",a=b=c" = some [⟨"a", "b"⟩]
      ∧ ([(⟨"a", "b"⟩ : tag)] ≠ [⟨"a", "b=c"⟩])
      ∧ joinTags Datadog [⟨"a", "b:c"⟩] = some "|#a:b:c"
      ∧ splitTags Datadog "|#a:b:c" = some [⟨"a", "b"⟩]
      ∧ ([(⟨"a", "b"⟩ : tag)] ≠ [⟨"a", "b:c"⟩]) := by
  refine ⟨?_, ?_, ?_, ?_, ?_, ?_⟩ <;> decide

/-- Witness for C7 (amended): the two-tag set {a:1, b:2} round-trips under
both dialects. -/
theorem tag_roundtrip_separator_free_witness :
    splitTags InfluxDB (joinInfluxDB [⟨"a", "1"⟩, ⟨"b", "2"⟩]) = some [⟨"a", "1"⟩, ⟨"b", "2"⟩]
      ∧ splitTags Datadog (joinDatadog [⟨"a", "1"⟩, ⟨"b", "2"⟩]) = some [⟨"a", "1"⟩, ⟨"b", "2"⟩] :=
  ⟨(tag_roundtrip_separator_free.1 [⟨"a", "1"⟩, ⟨"b", "2"⟩] (by decide)
      (by decide) (by decide)).2,
   (tag_roundtrip_separator_free.2 [⟨"a", "1"⟩, ⟨"b", "2"⟩] (by decide)
      (by decide) (by decide)).2⟩


end Statsd
